import Mathlib

/-!
# Verification of the MCPJungle gateway core

A shallow embedding of the parts of the MCPJungle source that the
specification's testable claims are about:

* canonical tool naming (`internal/service/mcp/util.go`:
  `validateServerName`, `mergeServerToolNames`, `splitServerToolName`);
* loopback-URL detection (`isLoopbackURL`, together with models of
  `net/url.Parse` + `URL.Hostname` and `net.ParseIP` / `IP.IsLoopback`);
* streamable-HTTP client header preparation (`prepareSHTTPClientOptions`);
* the catalog service state (`MCPService`): enable/disable
  (`setToolsEnabled`), catalog import (`registerServerTools`),
  catalog removal (`deregisterServerTools`) and tool invocation
  (`InvokeTool`);
* the user service (`internal/service/user/user.go`: `CreateUser`,
  `CreateAdminUser`) and access-token validation (`internal/util.go`).

Strings manipulated by the naming and URL code are modelled as `List Char`.
The separator `__` is ASCII, and a UTF-8 continuation byte is never an
ASCII byte, so a byte-level first occurrence of `__` (Go `strings.Cut`)
coincides with the rune-level first occurrence modelled here.
-/

namespace MCPJungle

/-! ## Canonical naming (internal/service/mcp/util.go) -/

/-- The character class of the server-name regular expression
`^[a-zA-Z0-9_-]+$` (util.go, `validServerName`). -/
def isServerNameChar (c : Char) : Bool :=
  decide (('a' ≤ c ∧ c ≤ 'z') ∨ ('A' ≤ c ∧ c ≤ 'Z') ∨
    ('0' ≤ c ∧ c ≤ '9') ∨ c = '_' ∨ c = '-')

/-- First occurrence of the separator `__` (Go `strings.Cut(name, "__")`):
returns the prefix before and the suffix after the *first* `__`, or `none`
when the separator does not occur. -/
def firstCut : List Char → Option (List Char × List Char)
  | [] => none
  | c :: rest =>
    if c = '_' ∧ rest.head? = some '_' then some ([], rest.tail)
    else (firstCut rest).map fun p => (c :: p.1, p.2)

/-- Go `strings.Contains(name, "__")`, expressed through the same
first-occurrence search that `strings.Cut` uses. -/
def containsDoubleUnderscore (name : List Char) : Bool :=
  (firstCut name).isSome

/-- `validateServerName` (util.go lines 43-61).  The Go function returns a
non-nil error exactly when one of the four checks fires; this embedding
returns `true` for acceptance and `false` for any error return. -/
def validateServerName (name : List Char) : Bool :=
  if name = [] then false
  else if !(name.all isServerNameChar) then false
  else if containsDoubleUnderscore name then false
  else if name.getLast? = some '_' then false
  else true

/-- `mergeServerToolNames` (util.go lines 63-66): `s + "__" + t`. -/
def mergeServerToolNames (s t : List Char) : List Char :=
  s ++ '_' :: '_' :: t

/-- `splitServerToolName` (util.go lines 68-71), i.e.
`strings.Cut(name, "__")`: on a hit, the prefix before the first `__`,
the suffix after it, and `true`; on a miss, the whole name, `""`, `false`. -/
def splitServerToolName (name : List Char) : List Char × List Char × Bool :=
  match firstCut name with
  | some (a, b) => (a, b, true)
  | none => (name, [], false)

/-- The anchored regular expression `^[a-zA-Z0-9_-]+$` as the spec states
it: at least one character, all from the class. -/
def matchesServerNameRegex (name : List Char) : Bool :=
  decide (name ≠ []) && name.all isServerNameChar

theorem firstCut_append_sep (s t : List Char)
    (hc : containsDoubleUnderscore s = false)
    (hl : s.getLast? ≠ some '_') :
    firstCut (s ++ '_' :: '_' :: t) = some (s, t) := by
  induction s with
  | nil =>
    simp [firstCut]
  | cons c s' ih =>
    have hcut : firstCut (c :: s') = none := by
      simpa [containsDoubleUnderscore, Option.isSome_iff_exists] using hc
    rw [firstCut] at hcut
    by_cases hcond : c = '_' ∧ s'.head? = some '_'
    · simp [hcond] at hcut
    · rw [if_neg hcond] at hcut
      have hs' : firstCut s' = none := by
        cases h : firstCut s' with
        | none => rfl
        | some p => rw [h] at hcut; simp at hcut
      cases s' with
      | nil =>
        have hcne : c ≠ '_' := by
          intro h; exact hl (by simp [h])
        simp [firstCut, hcne]
      | cons d s'' =>
        have hc' : containsDoubleUnderscore (d :: s'') = false := by
          simpa [containsDoubleUnderscore, Option.isSome_iff_exists] using hs'
        have hl' : (d :: s'').getLast? ≠ some '_' := by
          simpa [List.getLast?_cons_cons] using hl
        have ihr := ih hc' hl'
        have hcond2 : ¬(c = '_' ∧ ((d :: s'') ++ '_' :: '_' :: t).head? = some '_') := by
          simpa using hcond
        rw [List.cons_append, firstCut, if_neg hcond2, ihr]
        rfl

theorem validateServerName_eq_true_iff (name : List Char) :
    validateServerName name = true ↔
      (name ≠ [] ∧ name.all isServerNameChar = true ∧
       containsDoubleUnderscore name = false ∧ name.getLast? ≠ some '_') := by
  unfold validateServerName
  by_cases h1 : name = [] <;> by_cases h2 : name.all isServerNameChar <;>
    by_cases h3 : containsDoubleUnderscore name <;>
      by_cases h4 : name.getLast? = some '_' <;>
        simp [h1, h2, h3, h4]

/-- **C1.** For every server name accepted by `validateServerName` and every
tool name `t`, splitting the canonical name `s + "__" + t` at the first
occurrence of `__` recovers exactly `(s, t, true)`. -/
theorem split_merge_roundtrip (s t : List Char)
    (h : validateServerName s = true) :
    splitServerToolName (mergeServerToolNames s t) = (s, t, true) := by
  obtain ⟨-, -, hc, hl⟩ := (validateServerName_eq_true_iff s).mp h
  unfold splitServerToolName mergeServerToolNames
  rw [firstCut_append_sep s t hc hl]

/-- Witness for C1 at the concrete pair `("git", "commit")`. -/
theorem split_merge_roundtrip_witness :
    validateServerName "git".data = true ∧
      splitServerToolName (mergeServerToolNames "git".data "commit".data) =
        ("git".data, "commit".data, true) :=
  ⟨by decide, split_merge_roundtrip "git".data "commit".data (by decide)⟩

/-- **C2.** `validateServerName` accepts a name iff it is non-empty, matches
`^[a-zA-Z0-9_-]+$`, does not contain `__`, and does not end with `_`; and it
rejects each of: the empty string, any name containing `/`, any name
containing `$`, any name containing `__`, any name ending in `_`, and the
strings `_` and `__`. -/
theorem validateServerName_spec :
    (∀ name : List Char, validateServerName name = true ↔
      (name ≠ [] ∧ matchesServerNameRegex name = true ∧
       containsDoubleUnderscore name = false ∧ name.getLast? ≠ some '_'))
    ∧ validateServerName [] = false
    ∧ (∀ name : List Char, '/' ∈ name → validateServerName name = false)
    ∧ (∀ name : List Char, '$' ∈ name → validateServerName name = false)
    ∧ (∀ name : List Char,
        containsDoubleUnderscore name = true → validateServerName name = false)
    ∧ (∀ name : List Char,
        name.getLast? = some '_' → validateServerName name = false)
    ∧ validateServerName ['_'] = false
    ∧ validateServerName ['_', '_'] = false := by
  have hiff : ∀ name : List Char, validateServerName name = true ↔
      (name ≠ [] ∧ matchesServerNameRegex name = true ∧
       containsDoubleUnderscore name = false ∧ name.getLast? ≠ some '_') := by
    intro name
    rw [validateServerName_eq_true_iff]
    unfold matchesServerNameRegex
    constructor
    · rintro ⟨h1, h2, h3, h4⟩
      exact ⟨h1, by simp [h1, h2], h3, h4⟩
    · rintro ⟨h1, h2, h3, h4⟩
      refine ⟨h1, ?_, h3, h4⟩
      simpa [h1] using h2
  have hbadchar : ∀ (c : Char), isServerNameChar c = false →
      ∀ name : List Char, c ∈ name → validateServerName name = false := by
    intro c hc name hmem
    cases hv : validateServerName name with
    | false => rfl
    | true =>
      obtain ⟨-, hall, -, -⟩ := (validateServerName_eq_true_iff name).mp hv
      have := List.all_eq_true.mp hall c hmem
      rw [hc] at this
      exact absurd this (by simp)
  refine ⟨hiff, by decide, hbadchar '/' (by decide), hbadchar '$' (by decide),
    ?_, ?_, by decide, by decide⟩
  · intro name h
    cases hv : validateServerName name with
    | false => rfl
    | true =>
      obtain ⟨-, -, hnd, -⟩ := (validateServerName_eq_true_iff name).mp hv
      rw [h] at hnd
      exact absurd hnd (by simp)
  · intro name h
    cases hv : validateServerName name with
    | false => rfl
    | true =>
      obtain ⟨-, -, -, hlast⟩ := (validateServerName_eq_true_iff name).mp hv
      exact absurd h hlast

/-- Witness for C2: accepts `server-2`, rejects `a/b`. -/
theorem validateServerName_spec_witness :
    validateServerName "server-2".data = true ∧
      validateServerName "a/b".data = false :=
  ⟨(validateServerName_spec.1 "server-2".data).mpr (by decide),
   validateServerName_spec.2.2.1 "a/b".data (by decide)⟩

/-! ## Streamable-HTTP client headers (util.go, `prepareSHTTPClientOptions`)

Go's `map[string]string` of custom headers is modelled as an association
list with `List.lookup` as map access; the initial `for key, value`
copy loop is the identity on this representation. -/

structure StreamableHTTPConfig where
  url : String
  bearerToken : String
  headers : List (String × String)
deriving DecidableEq

/-- The header map that `prepareSHTTPClientOptions` (util.go lines 158-180)
builds before wrapping it in a `WithHTTPHeaders` transport option: custom
headers are copied; a non-empty bearer token adds
`Authorization: Bearer <token>` unless a custom `Authorization` header is
already present (in which case the token is ignored and a notice logged). -/
def prepareSHTTPHeaders (conf : StreamableHTTPConfig) : List (String × String) :=
  let headers := conf.headers
  if conf.bearerToken ≠ "" then
    if (headers.lookup "Authorization").isSome then
      headers
    else
      headers ++ [("Authorization", "Bearer " ++ conf.bearerToken)]
  else headers

/-- `prepareSHTTPClientOptions` returns a `WithHTTPHeaders` option exactly
when the resulting header map is non-empty. -/
def prepareSHTTPClientOptions (conf : StreamableHTTPConfig) :
    Option (List (String × String)) :=
  let headers := prepareSHTTPHeaders conf
  if headers ≠ [] then some headers else none

theorem lookup_append_of_none {k : String} {xs ys : List (String × String)}
    (h : xs.lookup k = none) : (xs ++ ys).lookup k = ys.lookup k := by
  induction xs with
  | nil => simp
  | cons p xs ih =>
    by_cases hk : k == p.1
    · simp [List.lookup, hk] at h
    · have hk' : (k == p.1) = false := by simpa using hk
      simp only [List.cons_append, List.lookup, hk'] at h ⊢
      exact ih h

theorem lookup_append_left {k : String} {xs ys : List (String × String)}
    {v : String} (h : xs.lookup k = some v) : (xs ++ ys).lookup k = some v := by
  induction xs with
  | nil => simp [List.lookup] at h
  | cons p xs ih =>
    by_cases hk : k == p.1
    · simp only [List.cons_append, List.lookup, hk] at h ⊢
      exact h
    · have hk' : (k == p.1) = false := by simpa using hk
      simp only [List.cons_append, List.lookup, hk'] at h ⊢
      exact ih h

/-- **C9.** With a non-empty bearer token: a custom `Authorization` header
wins (the header map is returned unchanged, so the bearer token is never
applied); without one, `Authorization: Bearer <token>` is added; in both
cases every other custom header is looked up unchanged. -/
theorem prepareSHTTPHeaders_spec (conf : StreamableHTTPConfig)
    (hb : conf.bearerToken ≠ "") :
    ((conf.headers.lookup "Authorization").isSome →
        prepareSHTTPHeaders conf = conf.headers)
    ∧ (conf.headers.lookup "Authorization" = none →
        (prepareSHTTPHeaders conf).lookup "Authorization" =
            some ("Bearer " ++ conf.bearerToken)
        ∧ ∀ k : String, k ≠ "Authorization" →
            (prepareSHTTPHeaders conf).lookup k = conf.headers.lookup k) := by
  constructor
  · intro h
    unfold prepareSHTTPHeaders
    simp [hb, h]
  · intro h
    have hform : prepareSHTTPHeaders conf =
        conf.headers ++ [("Authorization", "Bearer " ++ conf.bearerToken)] := by
      unfold prepareSHTTPHeaders
      simp [hb, h]
    constructor
    · rw [hform, lookup_append_of_none h]
      simp [List.lookup]
    · intro k hk
      rw [hform]
      cases hkl : conf.headers.lookup k with
      | none =>
        rw [lookup_append_of_none hkl]
        have hk' : (k == "Authorization") = false := by simpa using hk
        simp [List.lookup, hk']
      | some v => exact lookup_append_left hkl

/-- Witness for C9 with a concrete custom `Authorization` header. -/
theorem prepareSHTTPHeaders_spec_witness :
    ((([("Authorization", "token abc"), ("Foo", "Bar")] :
        List (String × String)).lookup "Authorization").isSome = true) ∧
      prepareSHTTPHeaders
          ⟨"https://example.com", "secret", [("Authorization", "token abc"), ("Foo", "Bar")]⟩ =
        [("Authorization", "token abc"), ("Foo", "Bar")] :=
  ⟨by decide,
   (prepareSHTTPHeaders_spec
     ⟨"https://example.com", "secret", [("Authorization", "token abc"), ("Foo", "Bar")]⟩
     (by decide)).1 (by decide)⟩

/-! ## User service (internal/service/user/user.go, internal/util.go) -/

inductive UserRole where
  | admin
  | user
deriving DecidableEq

structure User where
  username : String
  role : UserRole
  accessToken : String
deriving DecidableEq

/-- `unicode.IsSpace` restricted to its Latin-1 fast path; the Unicode
`White_Space` code points above U+00FF are not modelled (irrelevant to the
claims settled here). -/
def goIsSpace (c : Char) : Bool :=
  decide (c = ' ' ∨ c = '\t' ∨ c = '\n' ∨ c = Char.ofNat 11 ∨
    c = Char.ofNat 12 ∨ c = '\r' ∨ c = Char.ofNat 133 ∨ c = Char.ofNat 160)

/-- `hasWhitespace` (internal/util.go lines 35-42). -/
def hasWhitespace (token : String) : Bool :=
  token.data.any goIsSpace

/-- `ValidateAccessToken` (internal/util.go lines 24-32): length at least 8
and no whitespace.  Go measures `len(token)` in bytes; character count is
used here (identical on ASCII tokens). -/
def validateAccessToken (token : String) : Bool :=
  if token.length < 8 then false
  else if hasWhitespace token then false
  else true

/-- The users table with its unique index on `username`: `db.Create` fails
on a duplicate username and appends the row otherwise. -/
def userCreateRow (db : List User) (u : User) : Except String (List User) :=
  if db.any (fun x => x.username == u.username) then .error "duplicate username"
  else .ok (db ++ [u])

/-- `CreateAdminUser` (user.go lines 24-38): always creates the user named
`admin` with the admin role; `gen` stands for the token produced by
`GenerateAccessToken`. -/
def createAdminUser (db : List User) (gen : String) :
    Except String (User × List User) :=
  let user : User := { username := "admin", role := .admin, accessToken := gen }
  match userCreateRow db user with
  | .error e => .error e
  | .ok db' => .ok (user, db')

/-- `CreateUser` (user.go lines 55-78): the created row always carries the
`user` role; an empty input token is replaced by a generated one, a custom
token must pass `ValidateAccessToken`.  Any role carried by the input is
ignored. -/
def createUser (db : List User) (gen : String) (input : User) :
    Except String (User × List User) :=
  let token? : Except String String :=
    if input.accessToken = "" then .ok gen
    else if validateAccessToken input.accessToken then .ok input.accessToken
    else .error "invalid access token"
  match token? with
  | .error e => .error e
  | .ok token =>
    let user : User := { username := input.username, role := .user, accessToken := token }
    match userCreateRow db user with
    | .error e => .error e
    | .ok db' => .ok (user, db')

/-- **C10.** Every user persisted by `CreateUser` has role `user`, whatever
role the input record carries; an admin-role user arises only from
`CreateAdminUser`, which always creates the user named `admin`. -/
theorem createUser_role_spec :
    (∀ (db : List User) (gen : String) (input : User) (u : User) (db' : List User),
        createUser db gen input = .ok (u, db') →
          u.role = .user ∧ db' = db ++ [u])
    ∧ (∀ (db : List User) (gen : String) (u : User) (db' : List User),
        createAdminUser db gen = .ok (u, db') →
          u.username = "admin" ∧ u.role = .admin) := by
  constructor
  · intro db gen input u db' h
    unfold createUser userCreateRow at h
    by_cases h1 : input.accessToken = "" <;>
      by_cases h2 : validateAccessToken input.accessToken <;>
        by_cases h3 : db.any (fun x => x.username == input.username) <;>
          simp [h1, h2, h3] at h
    all_goals
      obtain ⟨hu, hdb⟩ := h
      subst hu; subst hdb
      exact ⟨rfl, rfl⟩
  · intro db gen u db' h
    unfold createAdminUser userCreateRow at h
    by_cases h3 : db.any (fun x => x.username == "admin") <;>
      simp [h3] at h
    obtain ⟨hu, hdb⟩ := h
    subst hu
    exact ⟨rfl, rfl⟩

/-- Witness for C10: an input that asks for the admin role still yields a
`user`-role row. -/
theorem createUser_role_spec_witness :
    (⟨"alice", .user, "gentoken123"⟩ : User).role = .user ∧
      ([] : List User) ++ [⟨"alice", .user, "gentoken123"⟩] =
        [(⟨"alice", .user, "gentoken123"⟩ : User)] :=
  createUser_role_spec.1 [] "gentoken123" ⟨"alice", .admin, ""⟩
    ⟨"alice", .user, "gentoken123"⟩ [⟨"alice", .user, "gentoken123"⟩] (by rfl)

/-! ## Catalog service state (`MCPService`, service tools file)

The `MCPService` struct is modelled by `ServiceState`: the registry
database rows (`servers`, `tools` with `nextToolID` as primary-key
allocator), the two proxy MCP servers' exposed tool lists, the in-memory
`toolInstances` map, and the published change events (the registered
addition/deletion callbacks are invoked synchronously; the event list
records those invocations).  `Env` abstracts the two external effects the
control flow branches on: whether `json.Unmarshal` of a stored input
schema succeeds and whether `db.Create` of a tool row succeeds. -/

abbrev ToolName := List Char

inductive McpTransport where
  | stdio
  | streamableHTTP
  | sse
deriving DecidableEq

/-- `model.McpServer` (the fields the catalog operations read). -/
structure McpServerRow where
  id : Nat
  name : ToolName
  transport : McpTransport
deriving DecidableEq

/-- `model.Tool` (internal/model, tool row). -/
structure ToolRow where
  id : Nat
  serverID : Nat
  name : ToolName
  enabled : Bool
  description : List Char
  inputSchema : List Char
  annotations : List Char
deriving DecidableEq

/-- `mcp.Tool` as the proxy servers and the instance tracker hold it. -/
structure McpToolObj where
  name : ToolName
  description : List Char
  inputSchema : List Char
  annotations : List Char
deriving DecidableEq

/-- One callback invocation: `toolAdditionCallback(name)` or
`toolDeletionCallback(names...)`. -/
inductive CatalogEvent where
  | added (name : ToolName)
  | removed (names : List ToolName)
deriving DecidableEq

structure ServiceState where
  servers : List McpServerRow
  tools : List ToolRow
  nextToolID : Nat
  mcpProxyTools : List McpToolObj
  sseMcpProxyTools : List McpToolObj
  toolInstances : List (ToolName × McpToolObj)
  events : List CatalogEvent
deriving DecidableEq

/-- External effects the catalog control flow branches on. -/
structure Env where
  unmarshalOk : List Char → Bool
  createOk : ToolRow → Bool

/-- `server.MCPServer.AddTool`: registers the tool under its name,
replacing any tool already registered under that name. -/
def proxyAddTool (ts : List McpToolObj) (t : McpToolObj) : List McpToolObj :=
  t :: ts.filter (fun x => !(x.name == t.name))

/-- `server.MCPServer.DeleteTools`. -/
def proxyDeleteTools (ts : List McpToolObj) (names : List ToolName) :
    List McpToolObj :=
  ts.filter (fun x => !(names.contains x.name))

/-- `addToolInstance`: keyed insert into the in-memory tracker,
overwriting an existing entry with the same name. -/
def addToolInstance (st : ServiceState) (t : McpToolObj) : ServiceState :=
  { st with toolInstances :=
      (t.name, t) :: st.toolInstances.filter (fun p => !(p.1 == t.name)) }

/-- `deleteToolInstances`. -/
def deleteToolInstances (st : ServiceState) (names : List ToolName) :
    ServiceState :=
  { st with toolInstances :=
      st.toolInstances.filter (fun p => !(names.contains p.1)) }

/-- `notifyToolAddition`: the addition callback runs synchronously; its
error, if any, is logged and dropped, so the invocation is recorded
unconditionally. -/
def notifyToolAddition (st : ServiceState) (name : ToolName) : ServiceState :=
  { st with events := st.events ++ [.added name] }

/-- `notifyToolDeletion`. -/
def notifyToolDeletion (st : ServiceState) (names : List ToolName) :
    ServiceState :=
  { st with events := st.events ++ [.removed names] }

/-- Modelled from the spec: the Registry Store's lookup of an MCP server
by name (`GetMcpServer`, whose body lives in the server-registry file of
the service; the spec's Registry Store contract is "lookups by name for
servers"). -/
def getMcpServer (st : ServiceState) (name : ToolName) : Option McpServerRow :=
  st.servers.find? (fun s => s.name == name)

/-- `db.Where("server_id = ? AND name = ?", ...).First(&tool)`. -/
def findToolRow (st : ServiceState) (sid : Nat) (name : ToolName) :
    Option ToolRow :=
  st.tools.find? (fun t => t.serverID == sid && t.name == name)

/-- `db.Save(&tool)`: update of the row with the same primary key. -/
def saveToolRow (st : ServiceState) (t' : ToolRow) : ServiceState :=
  { st with tools := st.tools.map (fun r => if r.id = t'.id then t' else r) }

/-- `convertToolModelToMcpObject` (util.go lines 106-134): fails exactly
when the stored input schema does not unmarshal; annotation unmarshal
failures are logged and ignored. -/
def convertToolModelToMcpObject (env : Env) (t : ToolRow) :
    Except (List Char) McpToolObj :=
  if env.unmarshalOk t.inputSchema then
    .ok { name := t.name, description := t.description,
          inputSchema := t.inputSchema, annotations := t.annotations }
  else .error "failed to unmarshal input schema".data

/-- `if s.Transport == types.TransportSSE { sseMcpProxyServer.AddTool }
else { mcpProxyServer.AddTool }`. -/
def addToolToProxy (st : ServiceState) (tr : McpTransport) (t : McpToolObj) :
    ServiceState :=
  if tr = .sse then
    { st with sseMcpProxyTools := proxyAddTool st.sseMcpProxyTools t }
  else
    { st with mcpProxyTools := proxyAddTool st.mcpProxyTools t }

/-- The transport-directed `DeleteTools`. -/
def deleteToolsFromProxy (st : ServiceState) (tr : McpTransport)
    (names : List ToolName) : ServiceState :=
  if tr = .sse then
    { st with sseMcpProxyTools := proxyDeleteTools st.sseMcpProxyTools names }
  else
    { st with mcpProxyTools := proxyDeleteTools st.mcpProxyTools names }

/-- The `for i := range tools` loop of `setToolsEnabled` (server-name
path); `acc` is `changedToolNames`.  An error return hands back the state
mutated so far (Go mutations performed before the error persist). -/
def setToolsEnabledLoop (env : Env) (s : McpServerRow) (enabled : Bool) :
    List ToolRow → ServiceState → List ToolName →
      Except (List Char) (List ToolName) × ServiceState
  | [], st, acc => (.ok acc, st)
  | tool :: rest, st, acc =>
    if tool.enabled = enabled then
      setToolsEnabledLoop env s enabled rest st acc
    else
      let tool' := { tool with enabled := enabled }
      let st1 := saveToolRow st tool'
      let canonicalToolName := mergeServerToolNames s.name tool.name
      if enabled then
        match convertToolModelToMcpObject env tool' with
        | .error e => (.error e, st1)
        | .ok m0 =>
          let mcpTool := { m0 with name := canonicalToolName }
          let st2 := addToolToProxy st1 s.transport mcpTool
          let st3 := addToolInstance st2 mcpTool
          let st4 := notifyToolAddition st3 canonicalToolName
          setToolsEnabledLoop env s enabled rest st4 (acc ++ [canonicalToolName])
      else
        let st2 := deleteToolsFromProxy st1 s.transport [canonicalToolName]
        let st3 := deleteToolInstances st2 [canonicalToolName]
        let st4 := notifyToolDeletion st3 [canonicalToolName]
        setToolsEnabledLoop env s enabled rest st4 (acc ++ [canonicalToolName])

/-- `setToolsEnabled` (service tools file lines 203-317). -/
def setToolsEnabled (env : Env) (st : ServiceState) (entity : ToolName)
    (enabled : Bool) : Except (List Char) (List ToolName) × ServiceState :=
  match splitServerToolName entity with
  | (serverName, toolName, true) =>
    match getMcpServer st serverName with
    | none => (.error "failed to get MCP server".data, st)
    | some s =>
      match findToolRow st s.id toolName with
      | none => (.error "failed to get tool".data, st)
      | some tool =>
        if tool.enabled = enabled then (.ok [entity], st)
        else
          let tool' := { tool with enabled := enabled }
          let st1 := saveToolRow st tool'
          if enabled then
            match convertToolModelToMcpObject env tool' with
            | .error e => (.error e, st1)
            | .ok m0 =>
              let mcpTool := { m0 with name := entity }
              let st2 := addToolToProxy st1 s.transport mcpTool
              let st3 := addToolInstance st2 mcpTool
              let st4 := notifyToolAddition st3 entity
              (.ok [entity], st4)
          else
            let st2 := deleteToolsFromProxy st1 s.transport [entity]
            let st3 := deleteToolInstances st2 [entity]
            let st4 := notifyToolDeletion st3 [entity]
            (.ok [entity], st4)
  | (_, _, false) =>
    match getMcpServer st entity with
    | none => (.error "failed to get MCP server".data, st)
    | some s =>
      let serverTools := st.tools.filter (fun t => t.serverID == s.id)
      setToolsEnabledLoop env s enabled serverTools st []

/-- `EnableTools`. -/
def enableTools (env : Env) (st : ServiceState) (entity : ToolName) :
    Except (List Char) (List ToolName) × ServiceState :=
  setToolsEnabled env st entity true

/-- `DisableTools`. -/
def disableTools (env : Env) (st : ServiceState) (entity : ToolName) :
    Except (List Char) (List ToolName) × ServiceState :=
  setToolsEnabled env st entity false

/-- `registerServerTools` (service tools file lines 320-366): the
`for _, tool := range resp.Tools` import loop.  The upstream `ListTools`
response is the `List McpToolObj` argument; a failed `db.Create` logs and
continues with the next tool. -/
def registerServerTools (env : Env) (s : McpServerRow) :
    List McpToolObj → ServiceState → ServiceState
  | [], st => st
  | tool :: rest, st =>
    let canonicalToolName := mergeServerToolNames s.name tool.name
    let t : ToolRow :=
      { id := st.nextToolID, serverID := s.id, name := tool.name,
        enabled := true, description := tool.description,
        inputSchema := tool.inputSchema, annotations := tool.annotations }
    if env.createOk t then
      let st1 := { st with tools := st.tools ++ [t],
                           nextToolID := st.nextToolID + 1 }
      let tool' := { tool with name := canonicalToolName }
      let st2 := addToolToProxy st1 s.transport tool'
      let st3 := addToolInstance st2 tool'
      let st4 := notifyToolAddition st3 canonicalToolName
      registerServerTools env s rest st4
    else
      registerServerTools env s rest st

/-- `deregisterServerTools` (service tools file lines 368-402):
`ListToolsByServer` (validate name, re-lookup the server by name, load and
canonicalize its tools), hard-delete the rows keyed by `s.ID`, then remove
the canonical names from the transport-matched proxy, the instance
tracker, and notify. -/
def deregisterServerTools (st : ServiceState) (s : McpServerRow) :
    Except (List Char) ServiceState :=
  if !(validateServerName s.name) then .error "invalid server name".data
  else
    match getMcpServer st s.name with
    | none => .error "failed to get MCP server".data
    | some s' =>
      let tools := st.tools.filter (fun t => t.serverID == s'.id)
      let toolNames := tools.map (fun t => mergeServerToolNames s'.name t.name)
      let st1 := { st with tools := st.tools.filter (fun t => !(t.serverID == s.id)) }
      let st2 := deleteToolsFromProxy st1 s.transport toolNames
      let st3 := deleteToolInstances st2 toolNames
      let st4 := notifyToolDeletion st3 toolNames
      .ok st4

/-! ## Tool invocation (`InvokeTool`) -/

/-- The part of `mcp.CallToolResult` the conversion path branches on:
whether each content item survives the JSON round-trip, and the `isError`
flag carried through. -/
structure CallToolResult where
  contentOk : Bool
  isError : Bool
deriving DecidableEq

structure ToolInvokeResult where
  isError : Bool
deriving DecidableEq

/-- The upstream MCP server's observable behaviour for one invocation:
whether `newMcpServerSession` succeeds, and the `CallTool` response per
short tool name. -/
structure UpstreamBehavior where
  sessionInit : Except (List Char) Unit
  callTool : ToolName → Except (List Char) CallToolResult

/-- Session lifecycle of one `InvokeTool` call: whether a session to the
upstream was opened, and whether it was closed by the time `InvokeTool`
returned. -/
structure SessionTrace where
  sessionOpened : Bool
  sessionClosed : Bool
deriving DecidableEq

/-- `InvokeTool` (service tools file lines 110-163).  After
`newMcpServerSession` succeeds the Go function runs
`defer mcpClient.Close()`, so every later return path closes the
session. -/
def invokeTool (st : ServiceState) (up : UpstreamBehavior) (name : ToolName) :
    Except (List Char) ToolInvokeResult × SessionTrace :=
  match splitServerToolName name with
  | (_, _, false) =>
    (.error "tool name does not contain a separator".data, ⟨false, false⟩)
  | (serverName, toolName, true) =>
    match getMcpServer st serverName with
    | none => (.error "failed to get details about MCP server".data, ⟨false, false⟩)
    | some _ =>
      match up.sessionInit with
      | .error e => (.error e, ⟨false, false⟩)
      | .ok _ =>
        match up.callTool toolName with
        | .error e => (.error ("failed to call tool: ".data ++ e), ⟨true, true⟩)
        | .ok resp =>
          if resp.contentOk then (.ok ⟨resp.isError⟩, ⟨true, true⟩)
          else (.error "failed to convert MCP response".data, ⟨true, true⟩)

/-! ## Projection lemmas for the state transformers -/

@[simp] theorem saveToolRow_servers (st : ServiceState) (t : ToolRow) :
    (saveToolRow st t).servers = st.servers := rfl

@[simp] theorem saveToolRow_events (st : ServiceState) (t : ToolRow) :
    (saveToolRow st t).events = st.events := rfl

@[simp] theorem saveToolRow_mcpProxyTools (st : ServiceState) (t : ToolRow) :
    (saveToolRow st t).mcpProxyTools = st.mcpProxyTools := rfl

@[simp] theorem saveToolRow_sseMcpProxyTools (st : ServiceState) (t : ToolRow) :
    (saveToolRow st t).sseMcpProxyTools = st.sseMcpProxyTools := rfl

@[simp] theorem addToolToProxy_servers (st : ServiceState) (tr : McpTransport)
    (t : McpToolObj) : (addToolToProxy st tr t).servers = st.servers := by
  unfold addToolToProxy; split <;> rfl

@[simp] theorem addToolToProxy_tools (st : ServiceState) (tr : McpTransport)
    (t : McpToolObj) : (addToolToProxy st tr t).tools = st.tools := by
  unfold addToolToProxy; split <;> rfl

@[simp] theorem addToolToProxy_nextToolID (st : ServiceState) (tr : McpTransport)
    (t : McpToolObj) : (addToolToProxy st tr t).nextToolID = st.nextToolID := by
  unfold addToolToProxy; split <;> rfl

@[simp] theorem addToolToProxy_events (st : ServiceState) (tr : McpTransport)
    (t : McpToolObj) : (addToolToProxy st tr t).events = st.events := by
  unfold addToolToProxy; split <;> rfl

@[simp] theorem deleteToolsFromProxy_servers (st : ServiceState)
    (tr : McpTransport) (names : List ToolName) :
    (deleteToolsFromProxy st tr names).servers = st.servers := by
  unfold deleteToolsFromProxy; split <;> rfl

@[simp] theorem deleteToolsFromProxy_events (st : ServiceState)
    (tr : McpTransport) (names : List ToolName) :
    (deleteToolsFromProxy st tr names).events = st.events := by
  unfold deleteToolsFromProxy; split <;> rfl

@[simp] theorem addToolInstance_servers (st : ServiceState) (t : McpToolObj) :
    (addToolInstance st t).servers = st.servers := rfl

@[simp] theorem addToolInstance_tools (st : ServiceState) (t : McpToolObj) :
    (addToolInstance st t).tools = st.tools := rfl

@[simp] theorem addToolInstance_nextToolID (st : ServiceState) (t : McpToolObj) :
    (addToolInstance st t).nextToolID = st.nextToolID := rfl

@[simp] theorem addToolInstance_events (st : ServiceState) (t : McpToolObj) :
    (addToolInstance st t).events = st.events := rfl

@[simp] theorem addToolInstance_mcpProxyTools (st : ServiceState) (t : McpToolObj) :
    (addToolInstance st t).mcpProxyTools = st.mcpProxyTools := rfl

@[simp] theorem addToolInstance_sseMcpProxyTools (st : ServiceState)
    (t : McpToolObj) :
    (addToolInstance st t).sseMcpProxyTools = st.sseMcpProxyTools := rfl

@[simp] theorem deleteToolInstances_servers (st : ServiceState)
    (names : List ToolName) : (deleteToolInstances st names).servers = st.servers := rfl

@[simp] theorem deleteToolInstances_events (st : ServiceState)
    (names : List ToolName) : (deleteToolInstances st names).events = st.events := rfl

@[simp] theorem deleteToolInstances_mcpProxyTools (st : ServiceState)
    (names : List ToolName) :
    (deleteToolInstances st names).mcpProxyTools = st.mcpProxyTools := rfl

@[simp] theorem deleteToolInstances_sseMcpProxyTools (st : ServiceState)
    (names : List ToolName) :
    (deleteToolInstances st names).sseMcpProxyTools = st.sseMcpProxyTools := rfl

@[simp] theorem notifyToolAddition_servers (st : ServiceState) (n : ToolName) :
    (notifyToolAddition st n).servers = st.servers := rfl

@[simp] theorem notifyToolAddition_tools (st : ServiceState) (n : ToolName) :
    (notifyToolAddition st n).tools = st.tools := rfl

@[simp] theorem notifyToolAddition_nextToolID (st : ServiceState) (n : ToolName) :
    (notifyToolAddition st n).nextToolID = st.nextToolID := rfl

@[simp] theorem notifyToolAddition_events (st : ServiceState) (n : ToolName) :
    (notifyToolAddition st n).events = st.events ++ [.added n] := rfl

@[simp] theorem notifyToolAddition_mcpProxyTools (st : ServiceState) (n : ToolName) :
    (notifyToolAddition st n).mcpProxyTools = st.mcpProxyTools := rfl

@[simp] theorem notifyToolAddition_sseMcpProxyTools (st : ServiceState)
    (n : ToolName) :
    (notifyToolAddition st n).sseMcpProxyTools = st.sseMcpProxyTools := rfl

@[simp] theorem notifyToolDeletion_servers (st : ServiceState) (ns : List ToolName) :
    (notifyToolDeletion st ns).servers = st.servers := rfl

@[simp] theorem notifyToolDeletion_events (st : ServiceState) (ns : List ToolName) :
    (notifyToolDeletion st ns).events = st.events ++ [.removed ns] := rfl

@[simp] theorem notifyToolDeletion_mcpProxyTools (st : ServiceState)
    (ns : List ToolName) :
    (notifyToolDeletion st ns).mcpProxyTools = st.mcpProxyTools := rfl

@[simp] theorem notifyToolDeletion_sseMcpProxyTools (st : ServiceState)
    (ns : List ToolName) :
    (notifyToolDeletion st ns).sseMcpProxyTools = st.sseMcpProxyTools := rfl

/-! ## Concrete fixtures for witnesses and counterexamples -/

def sampleEnv : Env := ⟨fun _ => true, fun _ => true⟩

def sampleServer : McpServerRow := ⟨1, "srv".data, .streamableHTTP⟩

def sampleTool : ToolRow :=
  ⟨1, 1, "t".data, true, "d".data, "sch".data, "ann".data⟩

def sampleDisabledTool : ToolRow :=
  ⟨2, 1, "u".data, false, "d".data, "sch".data, "ann".data⟩

/-- A registry holding one streamable-HTTP server `srv` with one enabled
tool `t`. -/
def sampleState : ServiceState :=
  ⟨[sampleServer], [sampleTool], 2, [], [], [], []⟩

/-- Like `sampleState` but with a second, disabled tool `u` on `srv`. -/
def sampleState2 : ServiceState :=
  ⟨[sampleServer], [sampleTool, sampleDisabledTool], 3, [], [], [], []⟩

/-! ## C4: enabling an already-enabled tool is a no-op -/

/-- **C4.** Enabling a tool by canonical name when it is already enabled
returns exactly `[entity]` and leaves the whole service state unchanged —
in particular both proxy servers' exposed tool sets, the in-memory tool
instance map, and the published events are untouched. -/
theorem enableTools_idempotent (env : Env) (st : ServiceState)
    (entity serverName toolName : ToolName) (s : McpServerRow) (tool : ToolRow)
    (hsplit : splitServerToolName entity = (serverName, toolName, true))
    (hs : getMcpServer st serverName = some s)
    (ht : findToolRow st s.id toolName = some tool)
    (hen : tool.enabled = true) :
    enableTools env st entity = (.ok [entity], st) := by
  unfold enableTools setToolsEnabled
  rw [hsplit]
  simp only [hs, ht, hen, if_true]

/-- Witness for C4 at a concrete one-server, one-enabled-tool state. -/
theorem enableTools_idempotent_witness :
    enableTools sampleEnv sampleState "srv__t".data =
      (.ok ["srv__t".data], sampleState) :=
  enableTools_idempotent sampleEnv sampleState
    "srv__t".data "srv".data "t".data sampleServer sampleTool
    (by decide) (by decide) (by decide) rfl

/-! ## C5: the per-call session is closed by `InvokeTool` -/

/-- **C5, counterexample.** The claim that a successful `InvokeTool` does
not implicitly close the session it opened is false: at this concrete
state and upstream behaviour the invocation succeeds and the deferred
`mcpClient.Close()` has closed the session by the time it returns. -/
theorem invokeTool_closes_on_success_counterexample :
    (invokeTool sampleState ⟨.ok (), fun _ => .ok ⟨true, false⟩⟩
        "srv__t".data).1 = .ok ⟨false⟩
    ∧ (invokeTool sampleState ⟨.ok (), fun _ => .ok ⟨true, false⟩⟩
        "srv__t".data).2.sessionOpened = true
    ∧ (invokeTool sampleState ⟨.ok (), fun _ => .ok ⟨true, false⟩⟩
        "srv__t".data).2.sessionClosed = true :=
  ⟨rfl, rfl, rfl⟩

/-- **C5, amended.** `InvokeTool` opens a fresh per-call session and the
deferred close runs on every return path after it was opened: the session
is closed exactly when it was opened — on success as well as on a failed
call or conversion. -/
theorem invokeTool_session_lifecycle (st : ServiceState) (up : UpstreamBehavior)
    (name : ToolName) :
    (invokeTool st up name).2.sessionClosed = (invokeTool st up name).2.sessionOpened := by
  unfold invokeTool
  rcases h : splitServerToolName name with ⟨sn, tn, _ | _⟩ <;> simp only [h]
  cases hg : getMcpServer st sn <;> simp only [hg]
  rename_i s
  cases hi : up.sessionInit <;> simp only [hi]
  cases hc : up.callTool tn <;> simp only [hc]
  rename_i resp
  by_cases hr : resp.contentOk <;> simp [hr]

/-! ## C3: which tools does `setToolsEnabled` report and publish? -/

/-- The canonical names of the tools of a server whose `enabled` flag
differs from the desired value — the tools the server-name path actually
transitions. -/
def specChanged (s : McpServerRow) (enabled : Bool) (ts : List ToolRow) :
    List ToolName :=
  (ts.filter (fun t => !(t.enabled == enabled))).map
    (fun t => mergeServerToolNames s.name t.name)

/-- The callback invocations the server-name path publishes: one
`added`/`removed` event per transitioning tool, in catalog order. -/
def specEvents (s : McpServerRow) (enabled : Bool) (ts : List ToolRow) :
    List CatalogEvent :=
  (ts.filter (fun t => !(t.enabled == enabled))).map
    (fun t =>
      if enabled then CatalogEvent.added (mergeServerToolNames s.name t.name)
      else CatalogEvent.removed [mergeServerToolNames s.name t.name])

theorem setToolsEnabledLoop_ok (env : Env) (s : McpServerRow) (enabled : Bool) :
    ∀ (ts : List ToolRow) (st : ServiceState) (acc r : List ToolName)
      (st' : ServiceState),
      setToolsEnabledLoop env s enabled ts st acc = (.ok r, st') →
      r = acc ++ specChanged s enabled ts ∧
      st'.events = st.events ++ specEvents s enabled ts := by
  intro ts
  induction ts with
  | nil =>
    intro st acc r st' h
    rw [setToolsEnabledLoop] at h
    injection h with h1 h2
    injection h1 with h1
    subst h1; subst h2
    simp [specChanged, specEvents]
  | cons tool rest ih =>
    intro st acc r st' h
    rw [setToolsEnabledLoop] at h
    by_cases he : tool.enabled = enabled
    · rw [if_pos he] at h
      obtain ⟨h1, h2⟩ := ih st acc r st' h
      constructor
      · simpa [specChanged, he] using h1
      · simpa [specEvents, he] using h2
    · rw [if_neg he] at h
      cases hb : enabled with
      | false =>
        subst hb
        have htrue : tool.enabled = true := by simpa using he
        simp only [Bool.false_eq_true, if_false, reduceIte] at h
        obtain ⟨h1, h2⟩ := ih _ _ r st' h
        constructor
        · simp only [specChanged, List.filter_cons, htrue] at h1 ⊢
          simpa [List.append_assoc] using h1
        · simp only [notifyToolDeletion_events, deleteToolInstances_events,
            deleteToolsFromProxy_events, saveToolRow_events] at h2
          simp only [specEvents, List.filter_cons, htrue] at h2 ⊢
          simpa [List.append_assoc] using h2
      | true =>
        subst hb
        have hfalse : tool.enabled = false := by simpa using he
        simp only [if_true, reduceIte] at h
        cases hc : convertToolModelToMcpObject env { tool with enabled := true } with
        | error e =>
          rw [hc] at h
          injection h with h1 h2
          exact absurd h1 (by simp)
        | ok m0 =>
          rw [hc] at h
          obtain ⟨h1, h2⟩ := ih _ _ r st' h
          constructor
          · simp only [specChanged, List.filter_cons, hfalse] at h1 ⊢
            simpa [List.append_assoc] using h1
          · simp only [notifyToolAddition_events, addToolInstance_events,
              addToolToProxy_events, saveToolRow_events] at h2
            simp only [specEvents, List.filter_cons, hfalse] at h2 ⊢
            simpa [List.append_assoc] using h2

theorem mem_proxyAddTool_of_ne (ts : List McpToolObj) (T t : McpToolObj)
    (h : t.name ≠ T.name) : t ∈ proxyAddTool ts T ↔ t ∈ ts := by
  unfold proxyAddTool
  constructor
  · intro ht
    rcases List.mem_cons.mp ht with rfl | ht2
    · exact absurd rfl h
    · exact List.mem_of_mem_filter ht2
  · intro ht
    exact List.mem_cons_of_mem _ (List.mem_filter.mpr ⟨ht, by simpa using h⟩)

theorem mem_proxyDeleteTools_of_notmem (ts : List McpToolObj)
    (names : List ToolName) (t : McpToolObj) (h : ¬ t.name ∈ names) :
    t ∈ proxyDeleteTools ts names ↔ t ∈ ts := by
  unfold proxyDeleteTools
  rw [List.mem_filter]
  simp [h]

theorem frame_addToolToProxy (st : ServiceState) (tr : McpTransport)
    (T t : McpToolObj) (h : t.name ≠ T.name) :
    (t ∈ (addToolToProxy st tr T).mcpProxyTools ↔ t ∈ st.mcpProxyTools) ∧
    (t ∈ (addToolToProxy st tr T).sseMcpProxyTools ↔ t ∈ st.sseMcpProxyTools) := by
  unfold addToolToProxy
  by_cases htr : tr = .sse
  · rw [if_pos htr]
    exact ⟨Iff.rfl, mem_proxyAddTool_of_ne _ _ _ h⟩
  · rw [if_neg htr]
    exact ⟨mem_proxyAddTool_of_ne _ _ _ h, Iff.rfl⟩

theorem frame_deleteToolsFromProxy (st : ServiceState) (tr : McpTransport)
    (names : List ToolName) (t : McpToolObj) (h : ¬ t.name ∈ names) :
    (t ∈ (deleteToolsFromProxy st tr names).mcpProxyTools ↔ t ∈ st.mcpProxyTools) ∧
    (t ∈ (deleteToolsFromProxy st tr names).sseMcpProxyTools ↔ t ∈ st.sseMcpProxyTools) := by
  unfold deleteToolsFromProxy
  by_cases htr : tr = .sse
  · rw [if_pos htr]
    exact ⟨Iff.rfl, mem_proxyDeleteTools_of_notmem _ _ _ h⟩
  · rw [if_neg htr]
    exact ⟨mem_proxyDeleteTools_of_notmem _ _ _ h, Iff.rfl⟩

/-- The server-name loop never adds a tool object to or removes one from
either proxy unless its name is one of the transitioned canonical names:
tools already in the desired state cause no proxy mutation. -/
theorem setToolsEnabledLoop_frame (env : Env) (s : McpServerRow)
    (enabled : Bool) :
    ∀ (ts : List ToolRow) (st : ServiceState) (acc r : List ToolName)
      (st' : ServiceState),
      setToolsEnabledLoop env s enabled ts st acc = (.ok r, st') →
      ∀ t : McpToolObj, ¬ t.name ∈ specChanged s enabled ts →
        (t ∈ st'.mcpProxyTools ↔ t ∈ st.mcpProxyTools) ∧
        (t ∈ st'.sseMcpProxyTools ↔ t ∈ st.sseMcpProxyTools) := by
  intro ts
  induction ts with
  | nil =>
    intro st acc r st' h t ht
    rw [setToolsEnabledLoop] at h
    injection h with h1 h2
    subst h2
    exact ⟨Iff.rfl, Iff.rfl⟩
  | cons tool rest ih =>
    intro st acc r st' h t ht
    rw [setToolsEnabledLoop] at h
    by_cases he : tool.enabled = enabled
    · rw [if_pos he] at h
      have ht2 : ¬ t.name ∈ specChanged s enabled rest := by
        intro hm
        exact ht (by simpa [specChanged, he] using hm)
      exact ih st acc r st' h t ht2
    · rw [if_neg he] at h
      have hne : (tool.enabled == enabled) = false := by simpa using he
      have hnames : specChanged s enabled (tool :: rest) =
          mergeServerToolNames s.name tool.name :: specChanged s enabled rest := by
        simp [specChanged, hne]
      rw [hnames] at ht
      have htc : t.name ≠ mergeServerToolNames s.name tool.name := fun hh =>
        ht (hh ▸ List.mem_cons_self _ _)
      have htrest : ¬ t.name ∈ specChanged s enabled rest := fun hh =>
        ht (List.mem_cons_of_mem _ hh)
      cases hb : enabled
      · subst hb
        simp only [Bool.false_eq_true, reduceIte] at h
        obtain ⟨hm, hs2⟩ := ih _ _ r st' h t htrest
        simp only [notifyToolDeletion_mcpProxyTools,
          deleteToolInstances_mcpProxyTools] at hm
        simp only [notifyToolDeletion_sseMcpProxyTools,
          deleteToolInstances_sseMcpProxyTools] at hs2
        constructor
        · rw [hm]
          exact (frame_deleteToolsFromProxy _ s.transport _ t (by simpa using htc)).1
        · rw [hs2]
          exact (frame_deleteToolsFromProxy _ s.transport _ t (by simpa using htc)).2
      · subst hb
        simp only [reduceIte] at h
        split at h
        · injection h with h1 h2
          exact absurd h1 (by simp)
        · rename_i m0 heq
          obtain ⟨hm, hs2⟩ := ih _ _ r st' h t htrest
          simp only [notifyToolAddition_mcpProxyTools,
            addToolInstance_mcpProxyTools] at hm
          simp only [notifyToolAddition_sseMcpProxyTools,
            addToolInstance_sseMcpProxyTools] at hs2
          constructor
          · rw [hm]
            exact (frame_addToolToProxy _ s.transport _ t htc).1
          · rw [hs2]
            exact (frame_addToolToProxy _ s.transport _ t htc).2

/-- **C3, counterexample.** The single-tool path of `EnableTools` on a
tool that is *already* enabled returns `["srv__t"]` even though no tool's
enabled flag changed (the state, and with it the set of transitioned
tools, is untouched): the returned list is not the list of tools that
actually transitioned. -/
theorem setToolsEnabled_noop_returns_name_counterexample :
    enableTools sampleEnv sampleState "srv__t".data =
        (.ok ["srv__t".data], sampleState)
    ∧ specChanged sampleServer true
        (sampleState.tools.filter (fun t => t.serverID == sampleServer.id)) = [] :=
  ⟨rfl, rfl⟩

/-- **C3, amended.**  For a *server-name* entity the returned list contains
exactly the canonical names of the tools whose enabled flag actually
changed, exactly one addition/removal event is published per such tool,
and neither proxy MCP server gains or loses any tool whose name is not
among those transitioned canonical names (no-op tools are not touched,
not republished, and not returned).  For a *canonical tool name* entity,
a transitioning tool is reported as `[entity]` with exactly one event;
but the code returns `[entity]` even when the tool was already in the
desired state, in which case nothing is mutated and no event is
published. -/
theorem setToolsEnabled_transition_spec :
    (∀ (env : Env) (st : ServiceState) (entity : ToolName) (enabled : Bool)
       (s : McpServerRow) (r : List ToolName) (st' : ServiceState),
        firstCut entity = none →
        getMcpServer st entity = some s →
        setToolsEnabled env st entity enabled = (.ok r, st') →
        r = specChanged s enabled (st.tools.filter (fun t => t.serverID == s.id)) ∧
        st'.events = st.events ++
          specEvents s enabled (st.tools.filter (fun t => t.serverID == s.id)) ∧
        (∀ t : McpToolObj,
            ¬ t.name ∈ specChanged s enabled
              (st.tools.filter (fun t2 => t2.serverID == s.id)) →
            (t ∈ st'.mcpProxyTools ↔ t ∈ st.mcpProxyTools) ∧
            (t ∈ st'.sseMcpProxyTools ↔ t ∈ st.sseMcpProxyTools)))
    ∧ (∀ (env : Env) (st : ServiceState) (entity serverName toolName : ToolName)
         (enabled : Bool) (s : McpServerRow) (tool : ToolRow),
        splitServerToolName entity = (serverName, toolName, true) →
        getMcpServer st serverName = some s →
        findToolRow st s.id toolName = some tool →
        tool.enabled = enabled →
        setToolsEnabled env st entity enabled = (.ok [entity], st))
    ∧ (∀ (env : Env) (st : ServiceState) (entity serverName toolName : ToolName)
         (enabled : Bool) (s : McpServerRow) (tool : ToolRow)
         (r : List ToolName) (st' : ServiceState),
        splitServerToolName entity = (serverName, toolName, true) →
        getMcpServer st serverName = some s →
        findToolRow st s.id toolName = some tool →
        tool.enabled ≠ enabled →
        setToolsEnabled env st entity enabled = (.ok r, st') →
        r = [entity] ∧
        st'.events = st.events ++
          [if enabled then CatalogEvent.added entity
           else CatalogEvent.removed [entity]]) := by
  refine ⟨?_, ?_, ?_⟩
  · intro env st entity enabled s r st' hcut hs h
    have hsplit : splitServerToolName entity = (entity, [], false) := by
      simp [splitServerToolName, hcut]
    unfold setToolsEnabled at h
    rw [hsplit] at h
    simp only [hs] at h
    obtain ⟨h1, h2⟩ := setToolsEnabledLoop_ok env s enabled _ st [] r st' h
    refine ⟨h1, h2, ?_⟩
    intro t ht
    exact setToolsEnabledLoop_frame env s enabled _ st [] r st' h t ht
  · intro env st entity serverName toolName enabled s tool hsplit hs ht hen
    unfold setToolsEnabled
    rw [hsplit]
    simp only [hs, ht, hen, if_true]
  · intro env st entity serverName toolName enabled s tool r st' hsplit hs ht hne h
    unfold setToolsEnabled at h
    rw [hsplit] at h
    simp only [hs, ht] at h
    rw [if_neg hne] at h
    cases hb : enabled
    · subst hb
      simp only [Bool.false_eq_true, reduceIte] at h
      injection h with h1 h2
      injection h1 with h1
      subst h1
      subst h2
      refine ⟨rfl, ?_⟩
      simp
    · subst hb
      simp only [reduceIte] at h
      split at h
      · injection h with h1 h2
        exact absurd h1 (by simp)
      · rename_i m0 heq
        injection h with h1 h2
        injection h1 with h1
        subst h1
        subst h2
        refine ⟨rfl, ?_⟩
        simp

/-- Witness for the amended C3: enabling all tools of `srv` when `t` is
already enabled and `u` is disabled transitions exactly `srv__u` with
exactly one `added` event; enabling the disabled tool by its canonical
name `srv__u` returns `[srv__u]` with exactly one `added` event. -/
theorem setToolsEnabled_transition_spec_witness :
    (["srv__u".data] =
        specChanged sampleServer true
          (sampleState2.tools.filter (fun t => t.serverID == sampleServer.id)) ∧
      ((setToolsEnabled sampleEnv sampleState2 "srv".data true).2).events =
        sampleState2.events ++
          specEvents sampleServer true
            (sampleState2.tools.filter (fun t => t.serverID == sampleServer.id))) ∧
    (["srv__u".data] = ["srv__u".data] ∧
      ((setToolsEnabled sampleEnv sampleState2 "srv__u".data true).2).events =
        sampleState2.events ++ [CatalogEvent.added "srv__u".data]) := by
  have h1 := setToolsEnabled_transition_spec.1 sampleEnv sampleState2
    "srv".data true sampleServer ["srv__u".data]
    ((setToolsEnabled sampleEnv sampleState2 "srv".data true).2)
    (by decide) (by decide) (by rfl)
  have h3 := setToolsEnabled_transition_spec.2.2 sampleEnv sampleState2
    "srv__u".data "srv".data "u".data true sampleServer sampleDisabledTool
    ["srv__u".data] ((setToolsEnabled sampleEnv sampleState2 "srv__u".data true).2)
    (by decide) (by decide) (by decide) (by decide) (by rfl)
  exact ⟨⟨h1.1, h1.2.1⟩, ⟨h3.1, h3.2⟩⟩

/-! ## C7: catalog import persists-then-injects, skipping failed rows -/

/-- Name-membership in either proxy MCP server. -/
def ProxyHas (st : ServiceState) (n : ToolName) : Prop :=
  (∃ t ∈ st.mcpProxyTools, t.name = n) ∨ (∃ t ∈ st.sseMcpProxyTools, t.name = n)

theorem mem_proxyAddTool_name (ts : List McpToolObj) (t : McpToolObj)
    (n : ToolName) :
    (∃ x ∈ proxyAddTool ts t, x.name = n) ↔ n = t.name ∨ ∃ x ∈ ts, x.name = n := by
  unfold proxyAddTool
  constructor
  · rintro ⟨x, hx, hn⟩
    rcases List.mem_cons.mp hx with rfl | hx'
    · exact Or.inl hn.symm
    · exact Or.inr ⟨x, List.mem_of_mem_filter hx', hn⟩
  · rintro (rfl | ⟨x, hx, hn⟩)
    · exact ⟨t, List.mem_cons_self _ _, rfl⟩
    · by_cases hxn : x.name = t.name
      · exact ⟨t, List.mem_cons_self _ _, by rw [← hn, hxn]⟩
      · refine ⟨x, List.mem_cons_of_mem _ ?_, hn⟩
        exact List.mem_filter.mpr ⟨hx, by simpa using hxn⟩

theorem ProxyHas_congr (a b : ServiceState) (n : ToolName)
    (h1 : a.mcpProxyTools = b.mcpProxyTools)
    (h2 : a.sseMcpProxyTools = b.sseMcpProxyTools) :
    ProxyHas a n ↔ ProxyHas b n := by
  unfold ProxyHas
  rw [h1, h2]

theorem ProxyHas_notifyToolAddition (st : ServiceState) (n0 n : ToolName) :
    ProxyHas (notifyToolAddition st n0) n ↔ ProxyHas st n := Iff.rfl

theorem ProxyHas_addToolInstance (st : ServiceState) (t : McpToolObj)
    (n : ToolName) :
    ProxyHas (addToolInstance st t) n ↔ ProxyHas st n := Iff.rfl

theorem ProxyHas_addToolToProxy (st : ServiceState) (tr : McpTransport)
    (t : McpToolObj) (n : ToolName) :
    ProxyHas (addToolToProxy st tr t) n ↔ n = t.name ∨ ProxyHas st n := by
  unfold addToolToProxy ProxyHas
  by_cases htr : tr = .sse
  · rw [if_pos htr]
    simp only [mem_proxyAddTool_name]
    exact or_left_comm
  · rw [if_neg htr]
    simp only [mem_proxyAddTool_name]
    exact or_assoc

/-- The rows `registerServerTools` persists and the canonical names it
injects and announces, computed from the `createOk` outcomes; the third
component is the primary-key allocator after the loop. -/
def registerSpec (env : Env) (s : McpServerRow) :
    List McpToolObj → Nat → List ToolRow × List ToolName × Nat
  | [], nid => ([], [], nid)
  | tool :: rest, nid =>
    let t : ToolRow :=
      { id := nid, serverID := s.id, name := tool.name, enabled := true,
        description := tool.description, inputSchema := tool.inputSchema,
        annotations := tool.annotations }
    if env.createOk t then
      let p := registerSpec env s rest (nid + 1)
      (t :: p.1, mergeServerToolNames s.name tool.name :: p.2.1, p.2.2)
    else registerSpec env s rest nid

theorem registerServerTools_cons (env : Env) (s : McpServerRow)
    (tool : McpToolObj) (rest : List McpToolObj) (st : ServiceState) :
    registerServerTools env s (tool :: rest) st =
      (let canonicalToolName := mergeServerToolNames s.name tool.name
       let t : ToolRow :=
        { id := st.nextToolID, serverID := s.id, name := tool.name,
          enabled := true, description := tool.description,
          inputSchema := tool.inputSchema, annotations := tool.annotations }
       if env.createOk t then
        let st1 := { st with tools := st.tools ++ [t],
                             nextToolID := st.nextToolID + 1 }
        let tool' := { tool with name := canonicalToolName }
        let st2 := addToolToProxy st1 s.transport tool'
        let st3 := addToolInstance st2 tool'
        let st4 := notifyToolAddition st3 canonicalToolName
        registerServerTools env s rest st4
       else
        registerServerTools env s rest st) := rfl

theorem registerSpec_cons (env : Env) (s : McpServerRow) (tool : McpToolObj)
    (rest : List McpToolObj) (nid : Nat) :
    registerSpec env s (tool :: rest) nid =
      (let t : ToolRow :=
        { id := nid, serverID := s.id, name := tool.name, enabled := true,
          description := tool.description, inputSchema := tool.inputSchema,
          annotations := tool.annotations }
       if env.createOk t then
        let p := registerSpec env s rest (nid + 1)
        (t :: p.1, mergeServerToolNames s.name tool.name :: p.2.1, p.2.2)
       else registerSpec env s rest nid) := rfl

/-- **C7.** During catalog import, exactly the rows whose `db.Create`
succeeds are appended to the store; one addition event is published per
persisted tool and none for a skipped one; the import continues past a
failed row; and a name is exposed by a proxy MCP server after the import
iff it was exposed before or is the canonical name of a successfully
persisted tool. -/
theorem registerServerTools_spec (env : Env) (s : McpServerRow) :
    ∀ (upTools : List McpToolObj) (st : ServiceState),
      (registerServerTools env s upTools st).tools =
          st.tools ++ (registerSpec env s upTools st.nextToolID).1
      ∧ (registerServerTools env s upTools st).events =
          st.events ++
            (registerSpec env s upTools st.nextToolID).2.1.map CatalogEvent.added
      ∧ (registerSpec env s upTools st.nextToolID).2.1 =
          (registerSpec env s upTools st.nextToolID).1.map
            (fun row => mergeServerToolNames s.name row.name)
      ∧ (∀ n, ProxyHas (registerServerTools env s upTools st) n ↔
          ProxyHas st n ∨ n ∈ (registerSpec env s upTools st.nextToolID).2.1) := by
  intro upTools
  induction upTools with
  | nil =>
    intro st
    refine ⟨by simp [registerServerTools, registerSpec], ?_, ?_, ?_⟩
    · simp [registerServerTools, registerSpec]
    · simp [registerSpec]
    · intro n; simp [registerServerTools, registerSpec]
  | cons tool rest ih =>
    intro st
    rw [registerServerTools_cons, registerSpec_cons]
    by_cases hcr : env.createOk
        { id := st.nextToolID, serverID := s.id, name := tool.name,
          enabled := true, description := tool.description,
          inputSchema := tool.inputSchema, annotations := tool.annotations }
    · simp only [hcr, if_true, reduceIte]
      set c := mergeServerToolNames s.name tool.name with hc
      set row : ToolRow :=
        { id := st.nextToolID, serverID := s.id, name := tool.name,
          enabled := true, description := tool.description,
          inputSchema := tool.inputSchema, annotations := tool.annotations } with hrow
      set T : McpToolObj := { tool with name := c } with hT
      set B : ServiceState :=
        { st with tools := st.tools ++ [row], nextToolID := st.nextToolID + 1 } with hB
      set st4 : ServiceState :=
        notifyToolAddition (addToolInstance (addToolToProxy B s.transport T) T) c
        with hst4
      obtain ⟨ih1, ih2, ih3, ih4⟩ := ih st4
      have h4tools : st4.tools = st.tools ++ [row] := by
        rw [hst4]
        simp only [notifyToolAddition_tools, addToolInstance_tools,
          addToolToProxy_tools, hB]
      have h4nid : st4.nextToolID = st.nextToolID + 1 := by
        rw [hst4]
        simp only [notifyToolAddition_nextToolID, addToolInstance_nextToolID,
          addToolToProxy_nextToolID, hB]
      have h4events : st4.events = st.events ++ [CatalogEvent.added c] := by
        rw [hst4]
        simp only [notifyToolAddition_events, addToolInstance_events,
          addToolToProxy_events, hB]
      have h4proxy : ∀ n, ProxyHas st4 n ↔ n = c ∨ ProxyHas st n := by
        intro n
        rw [hst4, ProxyHas_notifyToolAddition, ProxyHas_addToolInstance,
          ProxyHas_addToolToProxy,
          ProxyHas_congr B st n (by rw [hB]) (by rw [hB]), hT]
      have hrn : mergeServerToolNames s.name row.name = c := by
        rw [hrow, hc]
      rw [h4nid] at ih3
      refine ⟨?_, ?_, ?_, ?_⟩
      · rw [ih1, h4tools, h4nid]
        simp
      · rw [ih2, h4events, h4nid]
        simp
      · simp only [List.map_cons]
        rw [ih3, hrn]
      · intro n
        rw [ih4 n, h4nid, h4proxy n]
        simp only [List.mem_cons]
        tauto
    · simp only [hcr, if_false, Bool.false_eq_true, reduceIte]
      obtain ⟨ih1, ih2, ih3, ih4⟩ := ih st
      exact ⟨ih1, ih2, ih3, ih4⟩

/-! ## C6: each tool lives in exactly one proxy MCP server -/

theorem firstCut_eq_some_append :
    ∀ (xs a b : List Char), firstCut xs = some (a, b) →
      xs = a ++ '_' :: '_' :: b := by
  intro xs
  induction xs with
  | nil => intro a b h; simp [firstCut] at h
  | cons c rest ih =>
    intro a b h
    rw [firstCut] at h
    by_cases hcond : c = '_' ∧ rest.head? = some '_'
    · rw [if_pos hcond] at h
      obtain ⟨hc1, hc2⟩ := hcond
      cases rest with
      | nil => simp at hc2
      | cons d rest' =>
        have hd : d = '_' := by simpa using hc2
        injection h with h
        have ha : a = [] := (congrArg Prod.fst h).symm
        have hb : b = rest' := (congrArg Prod.snd h).symm
        subst ha; subst hb; subst hc1; subst hd
        rfl
    · rw [if_neg hcond] at h
      cases hr : firstCut rest with
      | none => rw [hr] at h; exact Option.noConfusion h
      | some p =>
        rw [hr] at h
        obtain ⟨a2, b2⟩ := p
        obtain ⟨ha, hb⟩ : c :: a2 = a ∧ b2 = b := by simpa using h
        subst ha; subst hb
        simp [ih a2 b2 hr]

/-- The transport of the server owning a canonical name: split at the
first `__`, then look the server name up in the registry. -/
def ownerTransport (servers : List McpServerRow) (n : ToolName) :
    Option McpTransport :=
  match splitServerToolName n with
  | (sn, _, true) => (servers.find? (fun s => s.name == sn)).map (·.transport)
  | (_, _, false) => none

/-- The placement invariant: every tool exposed by the SSE proxy belongs
to an SSE upstream, and every tool exposed by the streamable-HTTP proxy
belongs to a non-SSE upstream. -/
def ProxyPlacementInv (st : ServiceState) : Prop :=
  (∀ t ∈ st.sseMcpProxyTools,
      ownerTransport st.servers t.name = some .sse) ∧
  (∀ t ∈ st.mcpProxyTools,
      ∃ tr, ownerTransport st.servers t.name = some tr ∧ tr ≠ .sse)

/-- Every registered server passed `validateServerName` (RegisterServer
validates the name before persisting the record). -/
def ServerNamesValid (st : ServiceState) : Prop :=
  ∀ s ∈ st.servers, validateServerName s.name = true

theorem splitServerToolName_merge (s t : List Char)
    (h : validateServerName s = true) :
    splitServerToolName (mergeServerToolNames s t) = (s, t, true) := by
  obtain ⟨-, -, hc, hl⟩ := (validateServerName_eq_true_iff s).mp h
  unfold splitServerToolName mergeServerToolNames
  rw [firstCut_append_sep s t hc hl]

theorem splitServerToolName_recover (n sn tn : List Char)
    (h : splitServerToolName n = (sn, tn, true)) :
    n = mergeServerToolNames sn tn := by
  unfold splitServerToolName at h
  cases hr : firstCut n with
  | none => rw [hr] at h; simp at h
  | some p =>
    rw [hr] at h
    obtain ⟨a, b⟩ := p
    obtain ⟨ha, hb⟩ : a = sn ∧ b = tn := by
      constructor
      · exact congrArg (fun q => q.1) h
      · exact congrArg (fun q => q.2.1) h
    subst ha; subst hb
    exact firstCut_eq_some_append n a b hr

theorem ownerTransport_merge (servers : List McpServerRow) (s : McpServerRow)
    (tn : ToolName)
    (hfind : servers.find? (fun x => x.name == s.name) = some s)
    (hvalid : validateServerName s.name = true) :
    ownerTransport servers (mergeServerToolNames s.name tn) = some s.transport := by
  unfold ownerTransport
  rw [splitServerToolName_merge s.name tn hvalid]
  simp only [hfind, Option.map]

theorem ProxyPlacementInv_add (st : ServiceState) (s : McpServerRow)
    (tn : ToolName) (T : McpToolObj)
    (hfind : st.servers.find? (fun x => x.name == s.name) = some s)
    (hvalid : validateServerName s.name = true)
    (hTname : T.name = mergeServerToolNames s.name tn)
    (hinv : ProxyPlacementInv st) :
    ProxyPlacementInv (addToolToProxy st s.transport T) := by
  have howner : ownerTransport st.servers T.name = some s.transport := by
    rw [hTname]
    exact ownerTransport_merge st.servers s tn hfind hvalid
  unfold addToolToProxy
  by_cases htr : s.transport = .sse
  · rw [if_pos htr]
    refine ⟨?_, hinv.2⟩
    intro t ht
    rcases List.mem_cons.mp ht with rfl | ht2
    · rw [howner, htr]
    · exact hinv.1 t (List.mem_of_mem_filter ht2)
  · rw [if_neg htr]
    refine ⟨hinv.1, ?_⟩
    intro t ht
    rcases List.mem_cons.mp ht with rfl | ht2
    · exact ⟨s.transport, howner, htr⟩
    · exact hinv.2 t (List.mem_of_mem_filter ht2)

theorem ProxyPlacementInv_delete (st : ServiceState) (tr : McpTransport)
    (names : List ToolName) (hinv : ProxyPlacementInv st) :
    ProxyPlacementInv (deleteToolsFromProxy st tr names) := by
  unfold deleteToolsFromProxy
  by_cases htr : tr = .sse
  · rw [if_pos htr]
    exact ⟨fun t ht => hinv.1 t (List.mem_of_mem_filter ht), hinv.2⟩
  · rw [if_neg htr]
    exact ⟨hinv.1, fun t ht => hinv.2 t (List.mem_of_mem_filter ht)⟩

theorem ProxyPlacementInv_saveToolRow (st : ServiceState) (t : ToolRow) :
    ProxyPlacementInv (saveToolRow st t) ↔ ProxyPlacementInv st := Iff.rfl

theorem ProxyPlacementInv_addToolInstance (st : ServiceState) (t : McpToolObj) :
    ProxyPlacementInv (addToolInstance st t) ↔ ProxyPlacementInv st := Iff.rfl

theorem ProxyPlacementInv_deleteToolInstances (st : ServiceState)
    (names : List ToolName) :
    ProxyPlacementInv (deleteToolInstances st names) ↔ ProxyPlacementInv st := Iff.rfl

theorem ProxyPlacementInv_notifyToolAddition (st : ServiceState) (n : ToolName) :
    ProxyPlacementInv (notifyToolAddition st n) ↔ ProxyPlacementInv st := Iff.rfl

theorem ProxyPlacementInv_notifyToolDeletion (st : ServiceState)
    (ns : List ToolName) :
    ProxyPlacementInv (notifyToolDeletion st ns) ↔ ProxyPlacementInv st := Iff.rfl

theorem setToolsEnabledLoop_servers (env : Env) (s : McpServerRow)
    (enabled : Bool) :
    ∀ (ts : List ToolRow) (st : ServiceState) (acc : List ToolName),
      ((setToolsEnabledLoop env s enabled ts st acc).2).servers = st.servers := by
  intro ts
  induction ts with
  | nil => intro st acc; rfl
  | cons tool rest ih =>
    intro st acc
    rw [setToolsEnabledLoop]
    by_cases he : tool.enabled = enabled
    · rw [if_pos he]; exact ih st acc
    · rw [if_neg he]
      cases hb : enabled
      · subst hb
        simp only [Bool.false_eq_true, reduceIte]
        rw [ih]
        simp
      · subst hb
        simp only [reduceIte]
        split
        · rfl
        · rw [ih]
          simp

theorem setToolsEnabled_servers (env : Env) (st : ServiceState)
    (entity : ToolName) (enabled : Bool) :
    ((setToolsEnabled env st entity enabled).2).servers = st.servers := by
  unfold setToolsEnabled
  rcases hsp : splitServerToolName entity with ⟨sn, tn, ok⟩
  cases ok
  · simp only [hsp]
    split
    · rfl
    · exact setToolsEnabledLoop_servers env _ enabled _ st []
  · simp only [hsp]
    split
    · rfl
    · split
      · rfl
      · split
        · rfl
        · split
          · split
            · rfl
            · simp
          · simp

theorem registerServerTools_servers (env : Env) (s : McpServerRow) :
    ∀ (ts : List McpToolObj) (st : ServiceState),
      (registerServerTools env s ts st).servers = st.servers := by
  intro ts
  induction ts with
  | nil => intro st; rfl
  | cons tool rest ih =>
    intro st
    rw [registerServerTools_cons]
    by_cases hcr : env.createOk
        { id := st.nextToolID, serverID := s.id, name := tool.name,
          enabled := true, description := tool.description,
          inputSchema := tool.inputSchema, annotations := tool.annotations }
    · simp only [hcr, reduceIte]
      rw [ih]
      simp
    · simp only [hcr, Bool.false_eq_true, reduceIte]
      exact ih st

theorem deregisterServerTools_servers (st : ServiceState) (s : McpServerRow)
    (st' : ServiceState) (h : deregisterServerTools st s = .ok st') :
    st'.servers = st.servers := by
  unfold deregisterServerTools at h
  cases hv : validateServerName s.name with
  | false => rw [hv] at h; simp at h
  | true =>
    rw [hv] at h
    simp only [Bool.not_true, Bool.false_eq_true, reduceIte] at h
    cases hg : getMcpServer st s.name with
    | none => rw [hg] at h; exact Except.noConfusion h
    | some s2 =>
      rw [hg] at h
      injection h with h
      rw [← h]
      simp

theorem setToolsEnabledLoop_preservesInv (env : Env) (s : McpServerRow)
    (enabled : Bool) (hvalid : validateServerName s.name = true) :
    ∀ (ts : List ToolRow) (st : ServiceState) (acc : List ToolName),
      st.servers.find? (fun x => x.name == s.name) = some s →
      ProxyPlacementInv st →
      ProxyPlacementInv ((setToolsEnabledLoop env s enabled ts st acc).2) := by
  intro ts
  induction ts with
  | nil => intro st acc _ hinv; exact hinv
  | cons tool rest ih =>
    intro st acc hfind hinv
    rw [setToolsEnabledLoop]
    by_cases he : tool.enabled = enabled
    · rw [if_pos he]; exact ih st acc hfind hinv
    · rw [if_neg he]
      cases hb : enabled
      · subst hb
        simp only [Bool.false_eq_true, reduceIte]
        refine ih _ _ ?_ ?_
        · simpa using hfind
        · exact ProxyPlacementInv_delete
            (saveToolRow st { tool with enabled := false }) s.transport
            [mergeServerToolNames s.name tool.name] hinv
      · subst hb
        simp only [reduceIte]
        split
        · exact hinv
        · rename_i m0 heq
          refine ih _ _ ?_ ?_
          · simpa using hfind
          · exact ProxyPlacementInv_add
              (saveToolRow st { tool with enabled := true }) s tool.name
              { m0 with name := mergeServerToolNames s.name tool.name }
              hfind hvalid rfl hinv

theorem setToolsEnabled_preservesInv (env : Env) (st : ServiceState)
    (entity : ToolName) (enabled : Bool)
    (hnames : ServerNamesValid st) (hinv : ProxyPlacementInv st) :
    ProxyPlacementInv ((setToolsEnabled env st entity enabled).2) := by
  unfold setToolsEnabled
  rcases hsp : splitServerToolName entity with ⟨sn, tn, ok⟩
  cases ok
  · simp only [hsp]
    split
    · exact hinv
    · rename_i s hg
      have hmem : s ∈ st.servers := List.mem_of_find?_eq_some hg
      have hname : s.name = entity := by simpa using List.find?_some hg
      have hvalid : validateServerName s.name = true := hnames s hmem
      have hfind : st.servers.find? (fun x => x.name == s.name) = some s := by
        rw [hname]; exact hg
      exact setToolsEnabledLoop_preservesInv env s enabled hvalid _ st [] hfind hinv
  · simp only [hsp]
    split
    · exact hinv
    · rename_i s hg
      have hmem : s ∈ st.servers := List.mem_of_find?_eq_some hg
      have hname : s.name = sn := by simpa using List.find?_some hg
      have hvalid : validateServerName s.name = true := hnames s hmem
      have hfind : st.servers.find? (fun x => x.name == s.name) = some s := by
        rw [hname]; exact hg
      have hentity : entity = mergeServerToolNames s.name tn := by
        rw [hname]; exact splitServerToolName_recover entity sn tn hsp
      split
      · exact hinv
      · rename_i tool hft
        split
        · exact hinv
        · split
          · rename_i he henb
            subst henb
            split
            · exact hinv
            · rename_i m0 heq
              exact ProxyPlacementInv_add
                (saveToolRow st { tool with enabled := true }) s tn
                { m0 with name := entity } hfind hvalid hentity hinv
          · exact ProxyPlacementInv_delete
              (saveToolRow st { tool with enabled := enabled }) s.transport
              [entity] hinv

theorem registerServerTools_preservesInv (env : Env) (s : McpServerRow)
    (hvalid : validateServerName s.name = true) :
    ∀ (ts : List McpToolObj) (st : ServiceState),
      st.servers.find? (fun x => x.name == s.name) = some s →
      ProxyPlacementInv st →
      ProxyPlacementInv (registerServerTools env s ts st) := by
  intro ts
  induction ts with
  | nil => intro st _ hinv; exact hinv
  | cons tool rest ih =>
    intro st hfind hinv
    rw [registerServerTools_cons]
    by_cases hcr : env.createOk
        { id := st.nextToolID, serverID := s.id, name := tool.name,
          enabled := true, description := tool.description,
          inputSchema := tool.inputSchema, annotations := tool.annotations }
    · simp only [hcr, reduceIte]
      refine ih _ ?_ ?_
      · simpa using hfind
      · exact ProxyPlacementInv_add
          { st with
              tools := st.tools ++
                [{ id := st.nextToolID, serverID := s.id, name := tool.name,
                   enabled := true, description := tool.description,
                   inputSchema := tool.inputSchema,
                   annotations := tool.annotations }],
              nextToolID := st.nextToolID + 1 }
          s tool.name { tool with name := mergeServerToolNames s.name tool.name }
          hfind hvalid rfl hinv
    · simp only [hcr, Bool.false_eq_true, reduceIte]
      exact ih st hfind hinv

theorem deregisterServerTools_preservesInv (st : ServiceState)
    (s : McpServerRow) (st' : ServiceState)
    (h : deregisterServerTools st s = .ok st')
    (hinv : ProxyPlacementInv st) : ProxyPlacementInv st' := by
  unfold deregisterServerTools at h
  cases hv : validateServerName s.name with
  | false => rw [hv] at h; simp at h
  | true =>
    rw [hv] at h
    simp only [Bool.not_true, Bool.false_eq_true, reduceIte] at h
    cases hg : getMcpServer st s.name with
    | none => rw [hg] at h; exact Except.noConfusion h
    | some s2 =>
      rw [hg] at h
      injection h with h
      rw [← h]
      exact ProxyPlacementInv_delete _ s.transport _ hinv

/-- The catalog mutations the claim ranges over: enable/disable of an
entity, catalog import for a registered server, and catalog removal. -/
inductive CatalogStep (env : Env) : ServiceState → ServiceState → Prop where
  | set {st st' : ServiceState} (entity : ToolName) (enabled : Bool)
      (r : Except (List Char) (List ToolName)) :
      setToolsEnabled env st entity enabled = (r, st') →
      CatalogStep env st st'
  | register {st : ServiceState} (s : McpServerRow) (upTools : List McpToolObj) :
      getMcpServer st s.name = some s →
      CatalogStep env st (registerServerTools env s upTools st)
  | deregister {st st' : ServiceState} (s : McpServerRow) :
      getMcpServer st s.name = some s →
      deregisterServerTools st s = .ok st' →
      CatalogStep env st st'

inductive CatalogReachable (env : Env) (st0 : ServiceState) :
    ServiceState → Prop where
  | refl : CatalogReachable env st0 st0
  | step {st st' : ServiceState} : CatalogReachable env st0 st →
      CatalogStep env st st' → CatalogReachable env st0 st'

theorem catalogStep_preserves (env : Env) {st st' : ServiceState}
    (hstep : CatalogStep env st st')
    (hnames : ServerNamesValid st) (hinv : ProxyPlacementInv st) :
    ServerNamesValid st' ∧ ProxyPlacementInv st' := by
  cases hstep with
  | set entity enabled r hset =>
    have h2 : st' = (setToolsEnabled env st entity enabled).2 := by rw [hset]
    have hsrv : st'.servers = st.servers := by
      rw [h2]; exact setToolsEnabled_servers env st entity enabled
    refine ⟨fun x hx => hnames x (hsrv ▸ hx), ?_⟩
    rw [h2]
    exact setToolsEnabled_preservesInv env st entity enabled hnames hinv
  | register s upTools hg =>
    have hvalid : validateServerName s.name = true :=
      hnames s (List.mem_of_find?_eq_some hg)
    have hsrv := registerServerTools_servers env s upTools st
    refine ⟨fun x hx => hnames x (hsrv ▸ hx), ?_⟩
    exact registerServerTools_preservesInv env s hvalid upTools st hg hinv
  | deregister s hg hdel =>
    have hsrv := deregisterServerTools_servers st s st' hdel
    refine ⟨fun x hx => hnames x (hsrv ▸ hx), ?_⟩
    exact deregisterServerTools_preservesInv st s st' hdel hinv

theorem disjoint_of_placement (st : ServiceState)
    (hinv : ProxyPlacementInv st) :
    ∀ n : ToolName, ¬((∃ t ∈ st.mcpProxyTools, t.name = n) ∧
      (∃ t ∈ st.sseMcpProxyTools, t.name = n)) := by
  rintro n ⟨⟨t1, ht1, hn1⟩, ⟨t2, ht2, hn2⟩⟩
  obtain ⟨tr, htr, hne⟩ := hinv.2 t1 ht1
  have h2 := hinv.1 t2 ht2
  rw [hn1] at htr
  rw [hn2] at h2
  rw [h2] at htr
  injection htr with htr
  exact hne htr.symm

/-- **C6.** From any state whose registered server names are valid and
whose proxies respect the transport placement (e.g. the empty proxies at
startup), every state reachable by catalog mutations (enable/disable,
import, deregistration) still places every SSE-upstream tool only in the
SSE proxy and every other tool only in the streamable-HTTP proxy, and no
canonical name is ever exposed by both proxies at once; removal therefore
targets the one proxy that can hold the tool. -/
theorem proxy_placement_disjoint (env : Env) (st0 st : ServiceState)
    (hnames : ServerNamesValid st0) (hinv : ProxyPlacementInv st0)
    (hreach : CatalogReachable env st0 st) :
    ProxyPlacementInv st ∧
      ∀ n : ToolName, ¬((∃ t ∈ st.mcpProxyTools, t.name = n) ∧
        (∃ t ∈ st.sseMcpProxyTools, t.name = n)) := by
  have key : ServerNamesValid st ∧ ProxyPlacementInv st := by
    induction hreach with
    | refl => exact ⟨hnames, hinv⟩
    | step hr hstep ih => exact catalogStep_preserves env hstep ih.1 ih.2
  exact ⟨key.2, disjoint_of_placement st key.2⟩

/-- Witness for C6: after importing a tool for the streamable-HTTP server
`srv` into the empty proxies, the placement invariant holds and no name is
in both proxies. -/
theorem proxy_placement_disjoint_witness :
    ProxyPlacementInv
        (registerServerTools sampleEnv sampleServer
          [⟨"t2".data, "d".data, "sch".data, "ann".data⟩] sampleState) ∧
      ∀ n : ToolName,
        ¬((∃ t ∈ (registerServerTools sampleEnv sampleServer
              [⟨"t2".data, "d".data, "sch".data, "ann".data⟩] sampleState).mcpProxyTools,
            t.name = n) ∧
          (∃ t ∈ (registerServerTools sampleEnv sampleServer
              [⟨"t2".data, "d".data, "sch".data, "ann".data⟩] sampleState).sseMcpProxyTools,
            t.name = n)) :=
  proxy_placement_disjoint sampleEnv sampleState
    (registerServerTools sampleEnv sampleServer
      [⟨"t2".data, "d".data, "sch".data, "ann".data⟩] sampleState)
    (fun s hs => by
      have hss : s = sampleServer := by simpa [sampleState] using hs
      rw [hss]; decide)
    ⟨fun t ht => absurd ht (by simp [sampleState]),
     fun t ht => absurd ht (by simp [sampleState])⟩
    (CatalogReachable.step CatalogReachable.refl
      (CatalogStep.register sampleServer
        [⟨"t2".data, "d".data, "sch".data, "ann".data⟩] (by decide)))

/-! ## C8: loopback-URL detection (`isLoopbackURL`)

`isLoopbackURL` composes `net/url.Parse` + `URL.Hostname()` with
`net.ParseIP` + `IP.IsLoopback`.  The standard-library parts are modelled
to the fidelity the hosts in question exercise:

* `hostnameChars` models scheme detection, authority extraction (between
  `//` and the first `/` or `?`), fragment stripping, userinfo stripping at
  the last `@`, bracketed-IPv6 hosts, and port validation (the suffix
  after the last `:` must be empty or all digits, else `url.Parse`
  errors).  Percent-escapes in the host and the per-character host/userinfo
  validation of `net/url` are not modelled; for hosts they would reject,
  both the model and Go end in a non-loopback verdict.  Parse errors and
  host-less URLs are both mapped to `none` / the empty host, which Go's
  `isLoopbackURL` treats identically (result `false`).
* `parseIP` models `net.ParseIP`: dotted-decimal IPv4 (four fields,
  1-3 digits, no leading zeros, each ≤ 255) and IPv6 (hex groups of at
  most 4 digits, one `::` compression, optional embedded dotted IPv4
  tail); zones (`%`) are rejected.  `isLoopback` models `IP.IsLoopback`:
  a 4-byte form is loopback iff its first octet is 127, where the 4-byte
  form also arises from an IPv4-mapped `::ffff:a.b.c.d` 16-byte address
  (`To4`); any other IPv6 address is loopback iff it equals `::1`.
* `eqFoldAscii` models `strings.EqualFold` restricted to ASCII folding
  (sufficient to compare against `"localhost"` for ASCII hosts). -/

def isDigitChar (c : Char) : Bool := decide ('0' ≤ c ∧ c ≤ '9')

def isAlphaChar (c : Char) : Bool :=
  decide (('a' ≤ c ∧ c ≤ 'z') ∨ ('A' ≤ c ∧ c ≤ 'Z'))

def isHexDigitChar (c : Char) : Bool :=
  isDigitChar c || decide (('a' ≤ c ∧ c ≤ 'f') ∨ ('A' ≤ c ∧ c ≤ 'F'))

def hexVal (c : Char) : Nat :=
  if isDigitChar c then c.toNat - 48
  else if decide ('a' ≤ c ∧ c ≤ 'f') then c.toNat - 87
  else c.toNat - 55

def digitsToNat (l : List Char) : Nat :=
  l.foldl (fun acc c => acc * 10 + (c.toNat - 48)) 0

def hexToNat (l : List Char) : Nat :=
  l.foldl (fun acc c => acc * 16 + hexVal c) 0

def splitOnChar (sep : Char) : List Char → List (List Char)
  | [] => [[]]
  | c :: rest =>
    if c = sep then [] :: splitOnChar sep rest
    else
      match splitOnChar sep rest with
      | [] => [[c]]
      | f :: fs => (c :: f) :: fs

/-- One dotted-decimal IPv4 field: 1-3 digits, no leading zero, ≤ 255. -/
def parseV4Field (l : List Char) : Option Nat :=
  if l = [] then none
  else if !(l.all isDigitChar) then none
  else if 3 < l.length then none
  else if 1 < l.length ∧ l.head? = some '0' then none
  else
    let v := digitsToNat l
    if v ≤ 255 then some v else none

/-- `net.ParseIP`'s dotted-decimal IPv4 parser. -/
def parseIPv4 (l : List Char) : Option (Nat × Nat × Nat × Nat) :=
  match splitOnChar '.' l with
  | [a, b, c, d] =>
    match parseV4Field a, parseV4Field b, parseV4Field c, parseV4Field d with
    | some va, some vb, some vc, some vd => some (va, vb, vc, vd)
    | _, _, _, _ => none
  | _ => none

/-- First occurrence of `::`. -/
def firstCutColons : List Char → Option (List Char × List Char)
  | [] => none
  | c :: rest =>
    if c = ':' ∧ rest.head? = some ':' then some ([], rest.tail)
    else (firstCutColons rest).map fun p => (c :: p.1, p.2)

def containsDoubleColon (l : List Char) : Bool :=
  (firstCutColons l).isSome

/-- A 16-bit IPv6 group: 1-4 hex digits. -/
def parseHexGroup (l : List Char) : Option Nat :=
  if l = [] then none
  else if 4 < l.length then none
  else if !(l.all isHexDigitChar) then none
  else some (hexToNat l)

/-- Colon-separated fields of one side of a `::`, rendered as bytes; the
final field of the address may be an embedded dotted IPv4 tail. -/
def sideFields (v4Tail : Bool) : List (List Char) → Option (List Nat)
  | [] => some []
  | [f] =>
    if v4Tail ∧ f.contains '.' then
      match parseIPv4 f with
      | some (a, b, c, d) => some [a, b, c, d]
      | none => none
    else (parseHexGroup f).map (fun g => [g / 256, g % 256])
  | f :: rest =>
    match parseHexGroup f, sideFields v4Tail rest with
    | some g, some bs => some (g / 256 :: g % 256 :: bs)
    | _, _ => none

def parseSide (v4Tail : Bool) (l : List Char) : Option (List Nat) :=
  if l = [] then some [] else sideFields v4Tail (splitOnChar ':' l)

/-- `net.ParseIP`'s IPv6 parser: at most one `::`, hex groups, optional
embedded IPv4 tail at the end, expanded to 16 bytes. -/
def parseIPv6 (l : List Char) : Option (List Nat) :=
  match firstCutColons l with
  | some (left, right) =>
    if containsDoubleColon right then none
    else
      match parseSide false left, parseSide true right with
      | some lb, some rb =>
        if lb.length + rb.length ≤ 14 then
          some (lb ++ List.replicate (16 - lb.length - rb.length) 0 ++ rb)
        else none
      | _, _ => none
  | none =>
    match parseSide true l with
    | some bs => if bs.length = 16 then some bs else none
    | none => none

inductive IPAddr where
  | v4 (a b c d : Nat)
  | v6 (bytes : List Nat)
deriving DecidableEq

/-- `net.ParseIP`: the first of `.`, `:`, `%` decides the family. -/
def parseIP (l : List Char) : Option IPAddr :=
  match l.find? (fun c => c = '.' ∨ c = ':' ∨ c = '%') with
  | some '.' => (parseIPv4 l).map (fun p => .v4 p.1 p.2.1 p.2.2.1 p.2.2.2)
  | some ':' => (parseIPv6 l).map .v6
  | _ => none

def ipv6LoopbackBytes : List Nat :=
  [0, 0, 0, 0, 0, 0, 0, 0, 0, 0, 0, 0, 0, 0, 0, 1]

/-- `IP.IsLoopback`: `To4` (4-byte, or 16-byte IPv4-mapped `::ffff:…`)
first octet 127, else equality with `IPv6loopback`. -/
def isLoopback : IPAddr → Bool
  | .v4 a _ _ _ => a == 127
  | .v6 bs =>
    if (bs.take 10).all (fun b => b == 0) && bs.get? 10 == some 255 &&
        bs.get? 11 == some 255 then
      bs.get? 12 == some 127
    else bs == ipv6LoopbackBytes

/-- Valid scheme character after the first: `[a-zA-Z0-9+\-.]`. -/
def isSchemeChar (c : Char) : Bool :=
  isAlphaChar c || isDigitChar c || decide (c = '+' ∨ c = '-' ∨ c = '.')

/-- Scan for the `:` ending a scheme; `none` when a non-scheme character
or the end of input arrives first. -/
def afterSchemeColon : List Char → Option (List Char)
  | [] => none
  | c :: rest =>
    if c = ':' then some rest
    else if isSchemeChar c then afterSchemeColon rest
    else none

/-- `getScheme`: `none` is the "missing protocol scheme" parse error; the
`some` value is what remains after the scheme (or the input itself when it
has no scheme). -/
def schemeSplit (l : List Char) : Option (List Char) :=
  match l with
  | [] => some []
  | c :: rest =>
    if c = ':' then none
    else if isAlphaChar c then
      match afterSchemeColon rest with
      | some r => some r
      | none => some l
    else some l

/-- Go `validOptionalPort`: empty, or `:` followed by digits only. -/
def validOptionalPort (l : List Char) : Bool :=
  match l with
  | [] => true
  | ':' :: ds => ds.all isDigitChar
  | _ => false

def lastIndexOfChar (c : Char) (l : List Char) : Option Nat :=
  match l.reverse.findIdx? (fun x => x = c) with
  | none => none
  | some j => some (l.length - 1 - j)

/-- Strip userinfo: everything after the last `@` of the authority. -/
def afterLastAt (l : List Char) : List Char :=
  (l.reverse.takeWhile (fun c => !(c == '@'))).reverse

/-- `parseHost` + `URL.Hostname()`: validate the optional port and strip
it together with IPv6 brackets; `none` on the parse errors ("missing ']'",
invalid port). -/
def parseHostPort (l : List Char) : Option (List Char) :=
  match l with
  | '[' :: _ =>
    match lastIndexOfChar ']' l with
    | none => none
    | some i =>
      if validOptionalPort (l.drop (i + 1)) then some ((l.take i).drop 1)
      else none
  | _ =>
    match lastIndexOfChar ':' l with
    | none => some l
    | some i =>
      if validOptionalPort (l.drop i) then some (l.take i) else none

/-- `url.Parse(raw).Hostname()`: `none` on parse error, `some host`
otherwise (`some []` when the URL has no authority). -/
def hostnameChars (raw : List Char) : Option (List Char) :=
  let unfragmented := raw.takeWhile (fun c => !(c == '#'))
  match schemeSplit unfragmented with
  | none => none
  | some rest =>
    if rest.take 2 = ['/', '/'] then
      let authority := (rest.drop 2).takeWhile (fun c => !(c = '/' ∨ c = '?'))
      parseHostPort (afterLastAt authority)
    else some []

def toLowerAscii (c : Char) : Char :=
  if decide ('A' ≤ c ∧ c ≤ 'Z') then Char.ofNat (c.toNat + 32) else c

/-- `strings.EqualFold`, ASCII folding. -/
def eqFoldAscii (a b : List Char) : Bool :=
  a.map toLowerAscii == b.map toLowerAscii

/-- `isLoopbackURL` (util.go lines 85-103). -/
def isLoopbackURL (rawURL : String) : Bool :=
  match hostnameChars rawURL.data with
  | none => false
  | some host =>
    if host = [] then false
    else if eqFoldAscii host "localhost".data then true
    else
      match parseIP host with
      | some ip => isLoopback ip
      | none => false

/-- The spec's reading of a loopback host, with the addition the code
forces: `localhost` up to ASCII case, a dotted IPv4 address in
`127.0.0.0/8`, the IPv6 address `::1`, or an IPv4-mapped IPv6 address
(`::ffff:a.b.c.d`) whose embedded first octet is 127. -/
def LoopbackHost (host : List Char) : Prop :=
  eqFoldAscii host "localhost".data = true
  ∨ (∃ a b c d, parseIP host = some (.v4 a b c d) ∧ a = 127)
  ∨ parseIP host = some (.v6 ipv6LoopbackBytes)
  ∨ (∃ bs, parseIP host = some (.v6 bs) ∧
      (bs.take 10).all (fun b => b == 0) = true ∧ bs.get? 10 = some 255 ∧
      bs.get? 11 = some 255 ∧ bs.get? 12 = some 127)

/-- **C8, counterexample.** The claim's "false for every other host" fails:
`http://[::ffff:7f00:1]/` has a host that is not `localhost` in any case,
not a dotted IPv4 address, and not the IPv6 address `::1`, yet
`isLoopbackURL` returns `true` for it (the host is the IPv4-mapped form of
`127.0.0.1`, which `IP.IsLoopback` accepts through `To4`). -/
theorem isLoopbackURL_mapped_counterexample :
    isLoopbackURL "http://[::ffff:7f00:1]/" = true
    ∧ hostnameChars "http://[::ffff:7f00:1]/".data = some "::ffff:7f00:1".data
    ∧ eqFoldAscii "::ffff:7f00:1".data "localhost".data = false
    ∧ parseIPv4 "::ffff:7f00:1".data = none
    ∧ parseIP "::ffff:7f00:1".data ≠ some (.v6 ipv6LoopbackBytes) := by
  refine ⟨by decide, by decide, by decide, by decide, by decide⟩

/-- **C8, amended.** `isLoopbackURL` returns `true` exactly for inputs
that parse as a URL with a non-empty host that is `localhost`
case-insensitively, an IPv4 address in `127.0.0.0/8`, the IPv6 address
`::1`, *or an IPv4-mapped IPv6 form of a `127.0.0.0/8` address* —
including URLs carrying userinfo; it returns `false` for every other
host, for URLs with no host, and for inputs that fail to parse. -/
theorem isLoopbackURL_loopback_iff (raw : String) :
    isLoopbackURL raw = true ↔
      ∃ host, hostnameChars raw.data = some host ∧ host ≠ [] ∧
        LoopbackHost host := by
  cases hh : hostnameChars raw.data with
  | none => simp [isLoopbackURL, hh]
  | some host =>
    by_cases hemp : host = []
    · subst hemp
      simp [isLoopbackURL, hh]
    · by_cases hfold : eqFoldAscii host "localhost".data
      · simp [isLoopbackURL, hh, hemp, hfold, LoopbackHost]
      · have hfold' : eqFoldAscii host "localhost".data = false := by
          simpa using hfold
        cases hip : parseIP host with
        | none =>
          simp [isLoopbackURL, hh, hemp, hfold', hip, LoopbackHost]
        | some ip =>
          cases ip with
          | v4 a b c d =>
            simp [isLoopbackURL, hh, hemp, hfold', hip, LoopbackHost, isLoopback]
          | v6 bs =>
            by_cases hmap : ((bs.take 10).all (fun b => b == 0) &&
                bs.get? 10 == some 255 && bs.get? 11 == some 255) = true
            · have hsplit := hmap
              rw [Bool.and_eq_true, Bool.and_eq_true] at hsplit
              obtain ⟨⟨h1, h2⟩, h3⟩ := hsplit
              have h2' : bs.get? 10 = some 255 := by simpa using h2
              have h3' : bs.get? 11 = some 255 := by simpa using h3
              have hne : bs ≠ ipv6LoopbackBytes := by
                intro he
                rw [he] at h2'
                exact absurd h2' (by decide)
              have h1' : ∀ x ∈ List.take 10 bs, x = 0 := by simpa using h1
              simp [isLoopbackURL, hh, hemp, hfold', hip, LoopbackHost,
                isLoopback, hmap, hne, h1, h2', h3']
              tauto
            · have hmap' : ((bs.take 10).all (fun b => b == 0) &&
                  bs.get? 10 == some 255 && bs.get? 11 == some 255) = false := by
                simpa using hmap
              have hnomap : ¬((bs.take 10).all (fun b => b == 0) = true ∧
                  bs.get? 10 = some 255 ∧ bs.get? 11 = some 255) := by
                rintro ⟨h1, h2, h3⟩
                rw [Bool.and_eq_true, Bool.and_eq_true] at hmap
                exact hmap ⟨⟨h1, by simpa using h2⟩, by simpa using h3⟩
              simp only [isLoopbackURL, hh, hemp, hfold', hip, LoopbackHost,
                isLoopback, hmap', Bool.false_eq_true, if_false, reduceIte]
              constructor
              · intro h
                refine ⟨host, rfl, hemp, ?_⟩
                right; right; left
                rw [hip]
                have hbs : bs = ipv6LoopbackBytes := by simpa using h
                rw [hbs]
              · rintro ⟨host2, hh2, -, hl⟩
                injection hh2 with hhost
                subst hhost
                rcases hl with h | ⟨a, b, c, d, hv4, -⟩ | h | ⟨bs2, hbs2, hc1, hc2, hc3, -⟩
                · rw [h] at hfold'
                  exact absurd hfold' (by simp)
                · rw [hip] at hv4
                  exact IPAddr.noConfusion (Option.some.inj hv4)
                · rw [hip] at h
                  have hv := Option.some.inj h
                  injection hv with hbs
                  simp [hbs, ipv6LoopbackBytes]
                · rw [hip] at hbs2
                  have hv := Option.some.inj hbs2
                  injection hv with hbs
                  subst hbs
                  exact absurd ⟨hc1, hc2, hc3⟩ hnomap

end MCPJungle
